import Mathlib

/-!
Shallow embedding of the RusTracer ray tracer (Rust) in Lean 4.

Conventions used throughout:
* `f64` values are modelled as exact rationals (`ℚ`); the claims under study are
  about the algebraic / structural behaviour of the algorithms, not about
  floating-point rounding.
* Rust panics (index out of bounds, `unwrap`, explicit `panic!`) are modelled by
  `Option`/`Except` results: `none` (resp. `.error`) is an aborted computation.
* `f64::sqrt` has no exact rational counterpart; functions that need it take an
  abstract `sqrt : ℚ → ℚ` parameter. Statements either hold for every such
  parameter or instantiate it at inputs whose square root is rational.
-/

namespace RusTracer

/-- compare_float from utils.rs: absolute difference below the fixed epsilon 0.00001. -/
def compare_float (value1 value2 : ℚ) : Bool :=
  |value1 - value2| < 1/100000

/-- The w tag of a tuple (tuple.rs): a tuple is either a point (w = 1) or a vector (w = 0). -/
inductive W
  | Point
  | Vector
deriving DecidableEq, Repr

/-- W::to_int (tuple.rs): Vector ↦ 0, Point ↦ 1. -/
def W.to_int : W → ℤ
  | .Vector => 0
  | .Point => 1

/-- impl Sub for W (tuple.rs): Point−Vector=Point, Vector−Vector=Vector, Point−Point=Vector;
Vector−Point panics (`none`). -/
def W.sub : W → W → Option W
  | .Point, .Vector => some .Point
  | .Vector, .Vector => some .Vector
  | .Point, .Point => some .Vector
  | .Vector, .Point => none

/-- impl Add for W (tuple.rs): Point+Vector=Vector+Point=Point, Vector+Vector=Vector;
Point+Point panics (`none`). -/
def W.add : W → W → Option W
  | .Point, .Vector => some .Point
  | .Vector, .Point => some .Point
  | .Vector, .Vector => some .Vector
  | .Point, .Point => none

/-- Tuple (tuple.rs): components x, y, z together with the point/vector tag w. -/
structure Tuple where
  x : ℚ
  y : ℚ
  z : ℚ
  w : W
deriving DecidableEq, Repr

def Tuple.new_point (x y z : ℚ) : Tuple := ⟨x, y, z, W.Point⟩

def Tuple.new_vector (x y z : ℚ) : Tuple := ⟨x, y, z, W.Vector⟩

/-- Tuple::new_tuple (tuple.rs): w must be 0 (vector) or 1 (point), anything else panics. -/
def Tuple.new_tuple (x y z : ℚ) (w : ℤ) : Option Tuple :=
  if w = 0 then some ⟨x, y, z, W.Vector⟩
  else if w = 1 then some ⟨x, y, z, W.Point⟩
  else none

/-- impl Add for Tuple (tuple.rs); the w tags are added by `W.add` (may panic). -/
def Tuple.addT (a b : Tuple) : Option Tuple :=
  (W.add a.w b.w).map fun w => ⟨a.x + b.x, a.y + b.y, a.z + b.z, w⟩

/-- impl Sub for Tuple (tuple.rs); the w tags are subtracted by `W.sub` (may panic). -/
def Tuple.subT (a b : Tuple) : Option Tuple :=
  (W.sub a.w b.w).map fun w => ⟨a.x - b.x, a.y - b.y, a.z - b.z, w⟩

/-- impl Mul of f64 for Tuple (tuple.rs lines 175–186): every component is scaled and the
w tag is kept unchanged; there is no point/vector check on this operation. -/
def Tuple.mulScalar (t : Tuple) (scalar : ℚ) : Tuple :=
  ⟨t.x * scalar, t.y * scalar, t.z * scalar, t.w⟩

/-- impl Div of f64 for Tuple (tuple.rs). -/
def Tuple.divScalar (t : Tuple) (scalar : ℚ) : Tuple :=
  ⟨t.x / scalar, t.y / scalar, t.z / scalar, t.w⟩

/-- Tuple::magnitude (tuple.rs): panics on a point, otherwise √(x²+y²+z²). -/
def Tuple.magnitude (sqrt : ℚ → ℚ) (t : Tuple) : Option ℚ :=
  if t.w = W.Point then none
  else some (sqrt (t.x ^ 2 + t.y ^ 2 + t.z ^ 2))

/-- Tuple::normalize (tuple.rs): panics on a point, otherwise divides by the magnitude. -/
def Tuple.normalize (sqrt : ℚ → ℚ) (t : Tuple) : Option Tuple :=
  if t.w = W.Point then none
  else some (t.divScalar (sqrt (t.x ^ 2 + t.y ^ 2 + t.z ^ 2)))

/-- Tuple::dot_product (tuple.rs): panics if either argument is a point. -/
def Tuple.dot_product (a b : Tuple) : Option ℚ :=
  if a.w = W.Point ∨ b.w = W.Point then none
  else some (a.x * b.x + a.y * b.y + a.z * b.z)

/-- Tuple::cross_product (tuple.rs): panics if either argument is a point. -/
def Tuple.cross_product (a b : Tuple) : Option Tuple :=
  if a.w = W.Point ∨ b.w = W.Point then none
  else some (Tuple.new_vector (a.y * b.z - a.z * b.y) (a.z * b.x - a.x * b.z)
      (a.x * b.y - a.y * b.x))

/-- impl PartialEq for Tuple (tuple.rs): componentwise `compare_float`, exact on w. -/
def Tuple.eqb (a b : Tuple) : Bool :=
  compare_float a.x b.x && compare_float a.y b.y && compare_float a.z b.z
    && decide (a.w = b.w)

/-- Color (color.rs): linear RGB triple. -/
structure Color where
  red : ℚ
  green : ℚ
  blue : ℚ
deriving DecidableEq, Repr

def Color.new_color (red green blue : ℚ) : Color := ⟨red, green, blue⟩

/-- color::BLACK (color.rs). -/
def BLACK : Color := ⟨0, 0, 0⟩

/-- impl Add for Color (color.rs): componentwise addition. -/
def Color.add (a b : Color) : Color :=
  ⟨a.red + b.red, a.green + b.green, a.blue + b.blue⟩

/-- impl Mul of f64 for Color (color.rs): componentwise scaling. -/
def Color.mulScalar (c : Color) (s : ℚ) : Color :=
  ⟨c.red * s, c.green * s, c.blue * s⟩

/-- impl PartialEq for Color (color.rs): componentwise `compare_float`. -/
def Color.eqb (a b : Color) : Bool :=
  compare_float a.green b.green && compare_float a.blue b.blue && compare_float a.red b.red

/-- ErrorEnum (error.rs): the only error kind is a non-invertible matrix. -/
inductive ErrorEnum
  | NotInversible
deriving DecidableEq, Repr

/-- RayTracerError (error.rs); only the `Repr::Simple` form (a bare kind) is ever
constructed by the core, so the error is modelled by its kind. -/
structure TracerError where
  kind : ErrorEnum
deriving DecidableEq, Repr

/-- RayTracerError::new_simple (error.rs). -/
def TracerError.new_simple (kind : ErrorEnum) : TracerError := ⟨kind⟩

/-- Matrix (matrix.rs): a square matrix stored as a flat row-major list. All matrices built
by the program are 4×4 (or smaller sub-matrices during cofactor expansion). -/
structure Matrix where
  size : ℕ
  matrix : List ℚ
deriving DecidableEq, Repr

/-- Matrix::element (matrix.rs): row-major indexing `matrix[row*size + col]`. -/
def Matrix.element (m : Matrix) (row col : ℕ) : ℚ :=
  m.matrix.getD (row * m.size + col) 0

/-- Matrix::set_element (matrix.rs). -/
def Matrix.set_element (m : Matrix) (row col : ℕ) (value : ℚ) : Matrix :=
  { m with matrix := m.matrix.set (row * m.size + col) value }

/-- Matrix::new_matrix_with_data (matrix.rs). -/
def Matrix.new_matrix_with_data (size : ℕ) (data : List ℚ) : Matrix := ⟨size, data⟩

/-- Matrix::new_identity_matrix (matrix.rs): zero matrix with ones on the diagonal. -/
def Matrix.new_identity_matrix (size : ℕ) : Matrix :=
  ⟨size, (List.range size).flatMap fun r =>
    (List.range size).map fun c => if r = c then (1 : ℚ) else 0⟩

/-- Matrix::transpose (matrix.rs). -/
def Matrix.transpose (m : Matrix) : Matrix :=
  ⟨m.size, (List.range m.size).flatMap fun r =>
    (List.range m.size).map fun c => m.element c r⟩

/-- Matrix::sub_matix (matrix.rs): drops the given row and column, size shrinks by one. -/
def Matrix.sub_matix (m : Matrix) (row col : ℕ) : Matrix :=
  ⟨m.size - 1, (List.range m.size).flatMap fun irow =>
    (List.range m.size).flatMap fun icol =>
      if irow ≠ row ∧ icol ≠ col then [m.element irow icol] else []⟩

/-- Matrix::determinant (matrix.rs), indexed by the matrix size to make the cofactor
recursion structural: a 2×2 matrix uses the closed form, anything else expands along
row 0 (which yields 0 for sizes 0 and 1, exactly as the source recursion does). -/
def detAux : ℕ → Matrix → ℚ
  | 0, _ => 0
  | n + 1, m =>
    if n + 1 = 2 then
      m.element 0 0 * m.element 1 1 - m.element 1 0 * m.element 0 1
    else
      ((List.range (n + 1)).map fun col =>
        m.element 0 col *
          ((if (0 + col) % 2 = 1 then (-1 : ℚ) else 1) * detAux n (m.sub_matix 0 col))).sum

def Matrix.determinant (m : Matrix) : ℚ := detAux m.size m

/-- Matrix::minor (matrix.rs). -/
def Matrix.minor (m : Matrix) (row col : ℕ) : ℚ :=
  detAux (m.size - 1) (m.sub_matix row col)

/-- Matrix::cofactor (matrix.rs). -/
def Matrix.cofactor (m : Matrix) (row col : ℕ) : ℚ :=
  m.minor row col * (if (row + col) % 2 = 1 then (-1 : ℚ) else 1)

/-- Matrix::is_invertible (matrix.rs): determinant ≠ 0. -/
def Matrix.is_invertible (m : Matrix) : Bool :=
  !(m.determinant == 0)

/-- Matrix::inverse (matrix.rs lines 162–180): a singular matrix yields the
NotInversible error; otherwise entry (col,row) of the result is cofactor(row,col)/det,
i.e. entry (i,j) is cofactor(j,i)/det. -/
def Matrix.inverse (m : Matrix) : Except TracerError Matrix :=
  if ¬ m.is_invertible then
    .error (TracerError.new_simple .NotInversible)
  else
    .ok ⟨m.size, (List.range m.size).flatMap fun i =>
      (List.range m.size).map fun j => m.cofactor j i / m.determinant⟩

/-- Modelled from the spec: `memoized_inverse` is referenced from shape.rs and camera.rs but
its definition is not under src/. Per the spec (§3 Matrix, §4.1), it returns the same
inverse as `Matrix::inverse`, merely caching it ("identical matrices share a single cached
inverse"); the cache is behaviourally transparent, so it is modelled as `Matrix.inverse`. -/
def memoized_inverse (m : Matrix) : Except TracerError Matrix :=
  m.inverse

/-- Truncation of a rational toward zero, the behaviour of Rust's `as i64` cast on f64. -/
def truncQ (q : ℚ) : ℤ := q.num / (q.den : ℤ)

/-- impl Mul of Tuple for Matrix (matrix.rs lines 50–73): matrix–tuple product with the w tag
contributing `W::to_int` as the fourth coordinate; the resulting fourth coordinate is cast
`as i64` (truncation) and fed to `Tuple::new_tuple`, which panics unless it is 0 or 1. -/
def Matrix.mulTuple (m : Matrix) (t : Tuple) : Option Tuple :=
  let other_as_vec : List ℚ := [t.x, t.y, t.z, (W.to_int t.w : ℚ)]
  let tuple_tmp : List ℚ := (List.range 4).map fun row =>
    if row < m.size then
      ((List.range m.size).map fun col => m.element row col * other_as_vec.getD col 0).sum
    else 0
  Tuple.new_tuple (tuple_tmp.getD 0 0) (tuple_tmp.getD 1 0) (tuple_tmp.getD 2 0)
    (truncQ (tuple_tmp.getD 3 0))

/-- transformation.rs: create_translation builds the identity and sets the last column. -/
def create_translation (x y z : ℚ) : Matrix :=
  (((Matrix.new_identity_matrix 4).set_element 0 3 x).set_element 1 3 y).set_element 2 3 z

/-- transformation.rs: create_scaling builds the identity and sets the diagonal. -/
def create_scaling (x y z : ℚ) : Matrix :=
  (((Matrix.new_identity_matrix 4).set_element 0 0 x).set_element 1 1 y).set_element 2 2 z

/-- Pattern (pattern.rs): a tagged procedural color. None of the claims inspects a pattern
(every material in play carries `pattern = none`), so only an abstract tag with decidable
equality is kept of the variant data. -/
structure Pattern where
  tag : ℕ
deriving DecidableEq, Repr

/-- Material (reflection.rs lines 26–37). -/
structure Material where
  color : Color
  ambiant : ℚ
  diffuse : ℚ
  specular : ℚ
  shininess : ℚ
  pattern : Option Pattern
  reflective : ℚ
  transparency : ℚ
  refractive_index : ℚ
deriving DecidableEq, Repr

/-- Material::default_material (reflection.rs): white, 0.1/0.9/0.9/200, no pattern,
reflective 0, transparency 0, refractive index 1. -/
def Material.default_material : Material :=
  ⟨⟨1, 1, 1⟩, 1/10, 9/10, 9/10, 200, none, 0, 0, 1⟩

/-- impl PartialEq for Material (derived in reflection.rs): the color uses Color's
approximate equality, every other float field is compared exactly. -/
def Material.eqb (a b : Material) : Bool :=
  Color.eqb a.color b.color && decide (a.ambiant = b.ambiant) && decide (a.diffuse = b.diffuse)
    && decide (a.specular = b.specular) && decide (a.shininess = b.shininess)
    && decide (a.pattern = b.pattern) && decide (a.reflective = b.reflective)
    && decide (a.transparency = b.transparency)
    && decide (a.refractive_index = b.refractive_index)

/-- Ray (ray.rs): origin and direction tuples. -/
structure Ray where
  origin : Tuple
  direction : Tuple
deriving DecidableEq, Repr

/-- Ray::new (ray.rs lines 18–26): panics unless the origin is a point and the direction is
a vector; otherwise stores the two tuples unchanged. -/
def Ray.new (origin direction : Tuple) : Option Ray :=
  if origin.w ≠ W.Point then none
  else if direction.w ≠ W.Vector then none
  else some ⟨origin, direction⟩

/-- Ray::position (ray.rs): origin + direction · time (the w algebra cannot panic here
because direction·time keeps w = Vector). -/
def Ray.position (r : Ray) (time : ℚ) : Option Tuple :=
  r.origin.addT (r.direction.mulScalar time)

/-- Shape (shape/shape.rs lines 14–19): tagged primitive kind. -/
inductive Shape
  | ShapeTest (saved_ray : Ray)
  | Sphere (origin : Tuple) (radius : ℚ)
  | Plane
deriving DecidableEq, Repr

/-- Object (shape/object.rs lines 13–19); the Uuid id is modelled as a natural number. -/
structure Object where
  transform : Matrix
  material : Material
  shape : Shape
  id : ℕ
deriving DecidableEq, Repr

def Object.get_material (o : Object) : Material := o.material

/-- Modelled from the spec: `Object::new_sphere` (called by world.rs but not defined under
src/) produces a unit sphere at the origin with the identity transform and the default
material (spec §3 Object, §4.2 Sphere); ids are unique per object. -/
def Object.new_sphere (id : ℕ) : Object :=
  ⟨Matrix.new_identity_matrix 4, Material.default_material,
    Shape.Sphere (Tuple.new_point 0 0 0) 1, id⟩

/-- impl PartialEq for Matrix (matrix.rs lines 15–29): equal sizes and entrywise
`compare_float` over the zipped data. -/
def Matrix.eqb (a b : Matrix) : Bool :=
  if a.size ≠ b.size then false
  else (a.matrix.zip b.matrix).all fun p => compare_float p.1 p.2

/-- Componentwise ray equality (via the tuples' approximate equality). -/
def Ray.eqb (a b : Ray) : Bool :=
  Tuple.eqb a.origin b.origin && Tuple.eqb a.direction b.direction

/-- Derived PartialEq on Shape: tuples compare approximately, floats exactly. -/
def Shape.eqb : Shape → Shape → Bool
  | .ShapeTest r1, .ShapeTest r2 => Ray.eqb r1 r2
  | .Sphere o1 r1, .Sphere o2 r2 => Tuple.eqb o1 o2 && decide (r1 = r2)
  | .Plane, .Plane => true
  | _, _ => false

/-- Derived PartialEq on Object: fieldwise, with the custom Matrix/Material equalities. -/
def Object.eqb (a b : Object) : Bool :=
  Matrix.eqb a.transform b.transform && Material.eqb a.material b.material
    && Shape.eqb a.shape b.shape && decide (a.id = b.id)

/-- Intersection (ray.rs lines 40–44): a parameter t and the intersected object. -/
structure Intersection where
  t : ℚ
  object : Object
deriving DecidableEq, Repr

def Intersection.new (t : ℚ) (object : Object) : Intersection := ⟨t, object⟩

/-- Derived PartialEq on Intersection: exact on t, Object equality on the object. -/
def Intersection.eqb (a b : Intersection) : Bool :=
  decide (a.t = b.t) && Object.eqb a.object b.object

/-- One insertion step of sorting intersections by ascending t. -/
def insertByT (i : Intersection) : List Intersection → List Intersection
  | [] => [i]
  | j :: rest => if i.t ≤ j.t then i :: j :: rest else j :: insertByT i rest

/-- The `sort_by(t.partial_cmp)` of ray.rs, modelled as an insertion sort by ascending t. -/
def sortByT (l : List Intersection) : List Intersection :=
  l.foldr insertByT []

/-- hit_intersections (ray.rs lines 111–120): keep the intersections with `t > 0.0`, sort
ascending by t, and return the first one (None when nothing is left). -/
def hit_intersections (intersections : List Intersection) : Option Intersection :=
  (sortByT (intersections.filter fun value => 0 < value.t)).head?

/-- Canvas (canvas.rs): dense row-major pixel buffer. -/
structure Canvas where
  width : ℕ
  height : ℕ
  pixels : List Color
deriving DecidableEq, Repr

/-- index_from_pos (canvas.rs lines 18–20): row-major index `y*width + x`, with no bound
check on x. -/
def index_from_pos (x y width : ℕ) : ℕ :=
  y * width + x

/-- Canvas::new_canvas (canvas.rs): width·height pixels, all color(0,0,0). -/
def Canvas.new_canvas (width height : ℕ) : Canvas :=
  ⟨width, height, List.replicate (width * height) (Color.new_color 0 0 0)⟩

/-- Canvas::set_pixel_color (canvas.rs lines 39–41): writes
`pixels[index_from_pos(x,y,width)]`; a Rust `Vec` index write panics exactly when the
index is out of range of the buffer. -/
def Canvas.set_pixel_color (c : Canvas) (x_pos y_pos : ℕ) (color : Color) : Option Canvas :=
  if index_from_pos x_pos y_pos c.width < c.pixels.length then
    some { c with pixels := c.pixels.set (index_from_pos x_pos y_pos c.width) color }
  else none

/-- Computation (world.rs lines 127–140): the shading record. -/
structure Computation where
  t : ℚ
  object : Object
  point : Tuple
  over_point : Tuple
  under_point : Tuple
  eyev : Tuple
  normalv : Tuple
  inside : Bool
  reflectv : Tuple
  n1 : ℚ
  n2 : ℚ
deriving DecidableEq, Repr

/-- Computation::schlick (refraction.rs lines 38–54). The early `return 1.0` of the source
is flattened into the branch structure. Note that when n1 > n2 and there is no total
internal reflection the source replaces cos by `(1.0 - sint_t).powi(2)` — the square of
(1 − sin²_t), not its square root. -/
def Computation.schlick (c : Computation) : Option ℚ :=
  match Tuple.dot_product c.eyev c.normalv with
  | none => none
  | some cos0 =>
    if c.n1 > c.n2 then
      let n := c.n1 / c.n2
      let sint_t := n ^ 2 * (1 - cos0 ^ 2)
      if sint_t > 1 then some 1
      else
        let cos_t := (1 - sint_t) ^ 2
        let r0 := ((c.n1 - c.n2) / (c.n1 + c.n2)) ^ 2
        some (r0 + (1 - r0) * (1 - cos_t) ^ 5)
    else
      let r0 := ((c.n1 - c.n2) / (c.n1 + c.n2)) ^ 2
      some (r0 + (1 - r0) * (1 - cos0) ^ 5)

/-- The n1/n2 walk of prepare_computations_v2 (world.rs lines 199–236). The walk is the
only part of that function that assigns n1 and n2 (the helper leaves them at their 0.0
defaults), and it depends only on the chosen intersection and the intersection list. The
container is a Vec: push appends at the end, `last()` reads the end, `position` finds the
first index whose object equals (PartialEq) the current one, `remove(x)` deletes it. When
the loop ends without meeting the chosen hit, n1 and n2 keep their 0.0 defaults. -/
def n1n2Walk (intersection : Intersection) : List Intersection → List Object → ℚ × ℚ
  | [], _ => (0, 0)
  | i :: rest, container =>
    let is_hit := Intersection.eqb i intersection
    let n1 : ℚ :=
      if container.isEmpty then 1
      else ((container.getLast?.map fun o => (Object.get_material o).refractive_index).getD 0)
    let container' : List Object :=
      match container.findIdx? (fun n => Object.eqb n i.object) with
      | some x => container.eraseIdx x
      | none => container ++ [i.object]
    if is_hit then
      (n1, if container'.isEmpty then 1
        else ((container'.getLast?.map fun o => (Object.get_material o).refractive_index).getD 0))
    else
      n1n2Walk intersection rest container'

/-- The (n1, n2) pair computed by prepare_computations_v2 for a chosen hit. -/
def prepare_computations_n1n2 (intersection : Intersection)
    (intersection_list : List Intersection) : ℚ × ℚ :=
  n1n2Walk intersection intersection_list []

/-- Shape::local_normal_at (shape/shape.rs lines 88–117). The three branches are translated
verbatim: the Sphere branch transposes the inverse, forces w = 0 (W::from_int(0) = Vector)
and normalizes; the ShapeTest branch uses the untransposed inverse twice, forces w = 0 and
normalizes; the Plane branch returns `memoized_inverse(T) * vector(0,1,0)` directly, with
no transpose, no w reset and no normalization. Unwraps and tuple panics become `none`. -/
def Shape.local_normal_at (sqrt : ℚ → ℚ) :
    Shape → Object → Tuple → Option Tuple
  | .ShapeTest _, object, point => do
    let inv ← (memoized_inverse object.transform).toOption
    let local_point ← inv.mulTuple point
    let local_normal := local_point
    let inv2 ← (memoized_inverse object.transform).toOption
    let world_normal ← inv2.mulTuple local_normal
    Tuple.normalize sqrt { world_normal with w := W.Vector }
  | .Sphere _ _, object, point => do
    let inv ← (memoized_inverse object.transform).toOption
    let object_point ← inv.mulTuple point
    let object_normal ← object_point.subT (Tuple.new_point 0 0 0)
    let inv2 ← (memoized_inverse object.transform).toOption
    let world_normal ← inv2.transpose.mulTuple object_normal
    Tuple.normalize sqrt { world_normal with w := W.Vector }
  | .Plane, object, _ => do
    let inv ← (memoized_inverse object.transform).toOption
    inv.mulTuple (Tuple.new_vector 0 1 0)

/-- Object::normal_at (shape/object.rs lines 26–28): dispatches to the shape kind. -/
def Object.normal_at (sqrt : ℚ → ℚ) (o : Object) (point : Tuple) : Option Tuple :=
  o.shape.local_normal_at sqrt o point

/-- BAND_SIZE (camera.rs): rows per parallel band. -/
def BAND_SIZE : ℕ := 10

/-- Camera::render (camera.rs lines 121–130), abstracted over the per-pixel color
`colorAt x y` (the source's `self.color_at(&world, x, y)`, identical in both render
modes): start from a fresh hsize×vsize canvas and write every pixel in row-major loops
through `set_pixel_color`. Every write is in range (x < hsize, y < vsize), so the plain
`List.set` is the exact behaviour. -/
def render (hsize vsize : ℕ) (colorAt : ℕ → ℕ → Color) : List Color :=
  (List.range vsize).foldl
    (fun image y =>
      (List.range hsize).foldl
        (fun image2 x => image2.set (y * hsize + x) (colorAt x y)) image)
    (List.replicate (hsize * vsize) (Color.new_color 0 0 0))

/-- A bounds-checked list write: Rust's `band[i] = v` on a slice panics when i is out of
range. -/
def setChecked (l : List Color) (i : ℕ) (v : Color) : Option (List Color) :=
  if i < l.length then some (l.set i v) else none

/-- The per-band body of Camera::render_par_headless (camera.rs lines 190–198): for every
`row in 0..BAND_SIZE` and `col in 0..hsize`, write `band[row*hsize+col] =
colorAt col (row + i*BAND_SIZE)`. The write panics (`none`) when the band is shorter than
BAND_SIZE·hsize pixels. -/
def processBand (hsize : ℕ) (colorAt : ℕ → ℕ → Color) (i : ℕ) (band : List Color) :
    Option (List Color) :=
  (List.range BAND_SIZE).foldlM
    (fun b row =>
      (List.range hsize).foldlM
        (fun b2 col => setChecked b2 (row * hsize + col) (colorAt col (row + i * BAND_SIZE)))
        b)
    band

/-- Slicing a list into consecutive chunks of n elements, the last chunk possibly shorter:
the semantics of `par_chunks_mut(n)` for n > 0. -/
def chunksList (n : ℕ) : List Color → List (List Color)
  | [] => []
  | a :: l =>
    if _h : n = 0 then []
    else (a :: l).take n :: chunksList n ((a :: l).drop n)
termination_by l => l.length
decreasing_by
  simp only [List.length_drop, List.length_cons]
  omega

/-- Camera::render_par_headless (camera.rs lines 183–201), abstracted over the same
per-pixel color as `render`: split the fresh canvas into bands of BAND_SIZE rows
(`par_chunks_mut(hsize*BAND_SIZE)`, which panics on a zero chunk size), process every
band (the bands are disjoint, so the parallel iteration is the composition of the
per-band bodies), and the buffer is the concatenation of the processed bands. -/
def render_par_headless (hsize vsize : ℕ) (colorAt : ℕ → ℕ → Color) :
    Option (List Color) :=
  if hsize * BAND_SIZE = 0 then none
  else
    ((chunksList (hsize * BAND_SIZE)
        (List.replicate (hsize * vsize) (Color.new_color 0 0 0))).enum.mapM
      (fun p => processBand hsize colorAt p.1 p.2)).map fun processed => processed.flatten

/-- PointLight (reflection.rs lines 11–15). -/
structure PointLight where
  intensity : Color
  position : Tuple
deriving DecidableEq, Repr

/-- World (world.rs lines 12–16). -/
structure World where
  light_sources : List PointLight
  objects : List Object
deriving Repr

section RecursiveShading

/-!
The mutual recursion color_at / shade_hit / reflected_color / refracted_color
(world.rs lines 71–120, refraction.rs lines 14–35).

The functions below reproduce the control flow and the recursion structure of the source
exactly. The non-recursive leaf computations — `World::intersect_world`,
`prepare_computations_v2`, `lighting` and `World::is_shadowed_for_light`, none of which
calls back into the four recursive functions — are abstracted as parameters, so every
theorem below holds for all of them.

The evaluator is fuel-indexed: every call to one of the four functions consumes one unit
of fuel, and `none` at the outer level means the fuel ran out. The inner level models
Rust panics (`some none` is an aborted computation, `some (some c)` a returned color).
Termination of the source recursion is the statement that a fuel budget depending only on
the recursion budget and the number of lights makes the outer level succeed.
-/

variable (sqrt : ℚ → ℚ)
variable (intersectWorldO : World → Ray → List Intersection)
variable (prepCompsO : Intersection → Ray → List Intersection → Computation)
variable (lightingO : Material → PointLight → Tuple → Tuple → Tuple → Bool → Object → Color)
variable (isShadowedO : World → Tuple → PointLight → Bool)

mutual

/-- World::color_at (world.rs lines 101–110): empty intersection list gives BLACK,
otherwise build the shading record from the first intersection and shade it. -/
def colorAtF : ℕ → World → Ray → ℕ → Option (Option Color)
  | 0, _, _, _ => none
  | fuel + 1, w, ray, remaining =>
    match intersectWorldO w ray with
    | [] => some (some BLACK)
    | i0 :: rest =>
      shadeHitF fuel w (prepCompsO i0 ray (i0 :: rest)) remaining

/-- World::shade_hit (world.rs lines 71–99): fold the per-light contributions starting
from color(0,0,0). -/
def shadeHitF : ℕ → World → Computation → ℕ → Option (Option Color)
  | 0, _, _, _ => none
  | fuel + 1, w, comps, remaining =>
    shadeLightsF fuel w comps remaining w.light_sources (Color.new_color 0 0 0)

/-- The body of shade_hit's `for light in &self.light_sources` loop: surface lighting plus
the reflected and refracted contributions, Schlick-weighted when the material is both
reflective and transparent. -/
def shadeLightsF : ℕ → World → Computation → ℕ → List PointLight → Color →
    Option (Option Color)
  | 0, _, _, _, _, _ => none
  | _ + 1, _, _, _, [], shade => some (some shade)
  | fuel + 1, w, comps, remaining, light :: rest, shade =>
    let is_shadow := isShadowedO w comps.over_point light
    let surface := lightingO comps.object.get_material light comps.over_point comps.eyev
      comps.normalv is_shadow comps.object
    match reflectedColorF fuel w comps remaining with
    | none => none
    | some none => some none
    | some (some reflected) =>
      match refractedColorF fuel w comps remaining with
      | none => none
      | some none => some none
      | some (some refracted) =>
        let material := comps.object.get_material
        if material.reflective > 0 ∧ material.transparency > 0 then
          match comps.schlick with
          | none => some none
          | some reflectance =>
            shadeLightsF fuel w comps remaining rest
              (shade.add ((surface.add (reflected.mulScalar reflectance)).add
                (refracted.mulScalar (1 - reflectance))))
        else
          shadeLightsF fuel w comps remaining rest
            (shade.add ((surface.add reflected).add refracted))

/-- World::reflected_color (world.rs lines 112–120): BLACK when the material is not
reflective or the budget is 0; otherwise a secondary ray from over_point along reflectv,
shaded with budget remaining − 1 and scaled by the reflectivity. -/
def reflectedColorF : ℕ → World → Computation → ℕ → Option (Option Color)
  | 0, _, _, _ => none
  | fuel + 1, w, comps, remaining =>
    if comps.object.get_material.reflective = 0 ∨ remaining = 0 then some (some BLACK)
    else
      match Ray.new comps.over_point comps.reflectv with
      | none => some none
      | some reflect_ray =>
        match colorAtF fuel w reflect_ray (remaining - 1) with
        | none => none
        | some none => some none
        | some (some c) => some (some (c.mulScalar comps.object.get_material.reflective))

/-- World::refracted_color (refraction.rs lines 15–34): BLACK when the material is not
transparent or the budget is 0, BLACK under total internal reflection; otherwise a
secondary ray from under_point along the refracted direction, shaded with budget
remaining − 1 and scaled by the transparency. -/
def refractedColorF : ℕ → World → Computation → ℕ → Option (Option Color)
  | 0, _, _, _ => none
  | fuel + 1, w, comps, remaining =>
    if comps.object.get_material.transparency = 0 ∨ remaining = 0 then some (some BLACK)
    else
      let n_ratio := comps.n1 / comps.n2
      match Tuple.dot_product comps.eyev comps.normalv with
      | none => some none
      | some cos_i =>
        let sin2_t := n_ratio ^ 2 * (1 - cos_i ^ 2)
        if sin2_t > 1 then some (some BLACK)
        else
          let cos_t := sqrt (1 - sin2_t)
          match (comps.normalv.mulScalar (n_ratio * cos_i - cos_t)).subT
              (comps.eyev.mulScalar n_ratio) with
          | none => some none
          | some direction =>
            match Ray.new comps.under_point direction with
            | none => some none
            | some refract_ray =>
              match colorAtF fuel w refract_ray (remaining - 1) with
              | none => none
              | some none => some none
              | some (some c) =>
                some (some (c.mulScalar comps.object.get_material.transparency))

end

end RecursiveShading

/-- A concrete shading record exercising the n1 > n2 branch of schlick: cos = dot(eyev,
normalv) = 3/5, n1 = 3/2, n2 = 5/4, hence sin²_t = (6/5)²·(1 − 9/25) = 576/625 ≤ 1 and
√(1 − sin²_t) = 7/25 exactly. -/
def schlickExample : Computation :=
  { t := 1
    object := Object.new_sphere 0
    point := Tuple.new_point 0 0 0
    over_point := Tuple.new_point 0 0 0
    under_point := Tuple.new_point 0 0 0
    eyev := Tuple.new_vector (3/5) 0 0
    normalv := Tuple.new_vector 1 0 0
    inside := false
    reflectv := Tuple.new_vector 0 0 0
    n1 := 3/2
    n2 := 5/4 }

/-- Modelled from the spec: `Sphere::new_glass_sphere` (used by the refraction tests; not
defined under src/) is a unit sphere whose material has transparency 1.0 and refractive
index 1.5 (spec §8 scenario 6, glass spheres). -/
def new_glass_sphere (id : ℕ) : Object :=
  { Object.new_sphere id with
      material := { Material.default_material with transparency := 1, refractive_index := 3/2 } }

/-- Outer glass sphere A of the nested-spheres scenario: refractive index 1.5,
transform scaling(2,2,2). -/
def sphereA : Object :=
  { new_glass_sphere 1 with transform := create_scaling 2 2 2 }

/-- Middle glass sphere B: refractive index 2.0, transform translation(0,0,−0.25). -/
def sphereB : Object :=
  { new_glass_sphere 2 with
      material := { (new_glass_sphere 2).material with refractive_index := 2 },
      transform := create_translation 0 0 (-1/4) }

/-- Inner glass sphere C: refractive index 2.5, transform translation(0,0,0.25). -/
def sphereC : Object :=
  { new_glass_sphere 3 with
      material := { (new_glass_sphere 3).material with refractive_index := 5/2 },
      transform := create_translation 0 0 (1/4) }

/-- The six ordered intersections of the ray with the nested glass spheres, in object
order A, B, C, B, C, A (refraction.rs test, spec §8 scenario 6). -/
def nestedXs : List Intersection :=
  [⟨2, sphereA⟩, ⟨11/4, sphereB⟩, ⟨13/4, sphereC⟩,
   ⟨19/4, sphereB⟩, ⟨21/4, sphereC⟩, ⟨6, sphereA⟩]

/-- A Plane-shaped object whose (invertible) transform is the uniform scaling by 2. -/
def scaledPlane : Object :=
  { transform := create_scaling 2 2 2
    material := Material.default_material
    shape := Shape.Plane
    id := 0 }

/-- An empty world (World::new_world of world.rs). -/
def exampleWorld : World := ⟨[], []⟩

/-- A concrete ray along +z from the origin. -/
def exampleRay : Ray := ⟨Tuple.new_point 0 0 0, Tuple.new_vector 0 0 1⟩

/-!
Theorems. One theorem per claim of the specification, with witnesses for the theorems
that carry hypotheses; shared helper lemmas precede the claims that use them.
-/

/-- C7: Matrix::inverse returns Ok(matrix) exactly when the determinant is nonzero, and
returns the NotInversible error exactly when the determinant is zero; the Except result
admits no other outcome, and the error value is returned to the caller. -/
theorem inverse_ok_iff_det_ne_zero (m : Matrix) :
    ((∃ inv, m.inverse = .ok inv) ↔ m.determinant ≠ 0) ∧
    (m.inverse = .error (TracerError.new_simple .NotInversible) ↔ m.determinant = 0) := by
  unfold Matrix.inverse Matrix.is_invertible
  by_cases h : m.determinant = 0 <;> simp [h]

/-- C10: Ray::new panics whenever the origin is not a point or the direction is not a
vector, and otherwise returns the ray holding exactly the two given tuples. -/
theorem ray_new_point_vector (origin direction : Tuple) :
    (origin.w = W.Point ∧ direction.w = W.Vector →
      Ray.new origin direction = some ⟨origin, direction⟩) ∧
    (origin.w ≠ W.Point ∨ direction.w ≠ W.Vector → Ray.new origin direction = none) := by
  unfold Ray.new
  constructor
  · rintro ⟨h1, h2⟩
    simp [h1, h2]
  · rintro (h | h)
    · simp [h]
    · by_cases h0 : origin.w = W.Point <;> simp [h0, h]

/-- Witness for C10 at a concrete point/vector pair. -/
theorem ray_new_point_vector_witness :
    Ray.new (Tuple.new_point 1 2 3) (Tuple.new_vector 4 5 6) =
      some ⟨Tuple.new_point 1 2 3, Tuple.new_vector 4 5 6⟩ :=
  (ray_new_point_vector (Tuple.new_point 1 2 3) (Tuple.new_vector 4 5 6)).1 ⟨rfl, rfl⟩

/-- C8 (amended): dot product, cross product, magnitude and normalize are defined only
for vectors — they abort on any point argument — while scalar multiplication is defined
for every tuple, point or vector, scaling the components and keeping the w tag. -/
theorem vector_only_operations (sqrt : ℚ → ℚ) (a b t : Tuple) (s : ℚ) :
    ((Tuple.magnitude sqrt t).isSome ↔ t.w = W.Vector) ∧
    ((Tuple.normalize sqrt t).isSome ↔ t.w = W.Vector) ∧
    ((Tuple.dot_product a b).isSome ↔ (a.w = W.Vector ∧ b.w = W.Vector)) ∧
    ((Tuple.cross_product a b).isSome ↔ (a.w = W.Vector ∧ b.w = W.Vector)) ∧
    Tuple.mulScalar t s = ⟨t.x * s, t.y * s, t.z * s, t.w⟩ := by
  obtain ⟨ax, ay, az, aw⟩ := a
  obtain ⟨bx, b2, bz, bw⟩ := b
  obtain ⟨tx, ty, tz, tw⟩ := t
  refine ⟨?_, ?_, ?_, ?_, rfl⟩ <;> cases tw <;> cases aw <;> cases bw <;>
    simp [Tuple.magnitude, Tuple.normalize, Tuple.dot_product, Tuple.cross_product]

/-- C8 counterexample: scalar multiplication of a point does not abort — it returns the
scaled point, exactly as the source's own unit test asserts. -/
theorem mul_scalar_point_returns_value :
    Tuple.mulScalar (Tuple.new_point 3 2 1) 3 = Tuple.new_point 9 6 3 ∧
    (Tuple.new_point 3 2 1).w = W.Point := by
  refine ⟨?_, rfl⟩
  norm_num [Tuple.mulScalar, Tuple.new_point]

/-- C1: at the concrete shading record `schlickExample` (n1 = 3/2 > n2 = 5/4,
cos = 3/5, sin²_t = 576/625 ≤ 1), schlick replaces cos by (1 − sin²_t)² = (49/625)² and
its result differs from the value mandated by the claim, which replaces cos by
√(1 − sin²_t) = 7/25 (the second and third conjuncts verify that 7/25 is that square
root). -/
theorem schlick_squares_instead_of_sqrt :
    schlickExample.schlick = some (1/121 + (120/121) * (1 - (49/625 : ℚ) ^ 2) ^ 5) ∧
    ((7 : ℚ)/25) ^ 2 = 1 - ((3/2 : ℚ)/(5/4)) ^ 2 * (1 - (3/5 : ℚ) ^ 2) ∧
    (0 : ℚ) ≤ 7/25 ∧
    (1/121 + (120/121) * (1 - (49/625 : ℚ) ^ 2) ^ 5) ≠
      1/121 + (120/121) * (1 - (7/25 : ℚ)) ^ 5 := by
  refine ⟨?_, by norm_num, by norm_num, by norm_num⟩
  have hd : Tuple.dot_product schlickExample.eyev schlickExample.normalv = some (3/5) := by
    simp [schlickExample, Tuple.new_vector, Tuple.dot_product]
  simp only [Computation.schlick, hd]
  norm_num [schlickExample]

set_option maxHeartbeats 2000000 in
/-- C2: on a Plane-shaped object with the invertible transform scaling(2,2,2), normal_at
returns inverse(T)·(0,1,0) = (0,1/2,0) — it is not normalized and differs (also under the
source's approximate tuple equality) from the (0,1,0) that
normalize(transpose(inverse(T))·(0,1,0) with w ≔ 0) prescribes. -/
theorem plane_normal_skips_transpose_and_normalize :
    Object.normal_at (fun q => q) scaledPlane (Tuple.new_point 1 2 3) =
      some (Tuple.new_vector 0 (1/2) 0) ∧
    Tuple.new_vector 0 (1/2) 0 ≠ Tuple.new_vector 0 1 0 ∧
    Tuple.eqb (Tuple.new_vector 0 (1/2) 0) (Tuple.new_vector 0 1 0) = false := by
  have habs : |(1 : ℚ)/2| = 1/2 := abs_of_nonneg (by norm_num)
  have hinv : (create_scaling 2 2 2).inverse =
      .ok ⟨4, [1/2, 0, 0, 0, 0, 1/2, 0, 0, 0, 0, 1/2, 0, 0, 0, 0, 1]⟩ := by
    norm_num [Matrix.inverse, Matrix.is_invertible, Matrix.determinant, detAux,
      Matrix.cofactor, Matrix.minor, Matrix.sub_matix, Matrix.element, Matrix.set_element,
      create_scaling, Matrix.new_identity_matrix, List.range_succ]
  refine ⟨?_, by norm_num [Tuple.new_vector],
    by norm_num [Tuple.eqb, compare_float, Tuple.new_vector, habs]⟩
  simp only [Object.normal_at, scaledPlane, Shape.local_normal_at, memoized_inverse, hinv]
  norm_num [Except.toOption, Matrix.mulTuple, Matrix.element, Tuple.new_tuple, truncQ,
    W.to_int, Tuple.new_vector, List.range_succ, Option.bind]

set_option maxHeartbeats 1000000 in
/-- C4: walking the six ordered intersections of the nested glass spheres (A, B, C, B, C,
A with refractive indices 1.5, 2.0, 2.5), prepare_computations_v2 assigns exactly the
(n1, n2) pairs (1.0,1.5), (1.5,2.0), (2.0,2.5), (2.5,2.5), (2.5,1.5), (1.5,1.0). -/
theorem nested_spheres_n1_n2 :
    nestedXs.map (fun i => prepare_computations_n1n2 i nestedXs) =
      [(1, 3/2), (3/2, 2), (2, 5/2), (5/2, 5/2), (5/2, 3/2), (3/2, 1)] := by
  norm_num [nestedXs, prepare_computations_n1n2, n1n2Walk, Intersection.eqb, Object.eqb,
    Matrix.eqb, Material.eqb, Shape.eqb, Tuple.eqb, Color.eqb, compare_float,
    sphereA, sphereB, sphereC, new_glass_sphere, Object.new_sphere,
    Material.default_material, create_scaling, create_translation,
    Matrix.new_identity_matrix, Matrix.set_element, Object.get_material,
    List.range_succ, List.findIdx?, List.eraseIdx, List.getLast?]

/-- Membership through one insertion step of the t-sort. -/
theorem mem_insertByT {i a : Intersection} {l : List Intersection} :
    a ∈ insertByT i l ↔ a = i ∨ a ∈ l := by
  induction l with
  | nil => simp [insertByT]
  | cons j rest ih =>
    by_cases h : i.t ≤ j.t
    · simp only [insertByT, if_pos h, List.mem_cons]
    · simp only [insertByT, if_neg h, List.mem_cons, ih]
      tauto

/-- The t-sort does not change the members of the list. -/
theorem mem_sortByT {a : Intersection} {l : List Intersection} :
    a ∈ sortByT l ↔ a ∈ l := by
  induction l with
  | nil => simp [sortByT]
  | cons j rest ih =>
    simp only [sortByT, List.foldr_cons] at *
    rw [mem_insertByT, ih, List.mem_cons]

/-- Insertion preserves "the head is a lower bound for t". -/
theorem insertByT_head_min (i : Intersection) (l : List Intersection)
    (hl : ∀ a, l.head? = some a → ∀ j ∈ l, a.t ≤ j.t) :
    ∀ a, (insertByT i l).head? = some a → ∀ j ∈ insertByT i l, a.t ≤ j.t := by
  cases l with
  | nil =>
    intro a ha j hj
    simp only [insertByT, List.head?_cons, Option.some.injEq] at ha
    simp only [insertByT, List.mem_singleton] at hj
    rw [← ha, hj]
  | cons b rest =>
    by_cases h : i.t ≤ b.t
    · intro a ha j hj
      simp only [insertByT, if_pos h, List.head?_cons, Option.some.injEq] at ha
      simp only [insertByT, if_pos h, List.mem_cons] at hj
      rw [← ha]
      rcases hj with rfl | rfl | hj
      · exact le_refl _
      · exact h
      · exact le_trans h (hl b rfl j (List.mem_cons_of_mem b hj))
    · intro a ha j hj
      simp only [insertByT, if_neg h, List.head?_cons, Option.some.injEq] at ha
      simp only [insertByT, if_neg h, List.mem_cons, mem_insertByT] at hj
      rw [← ha]
      rcases hj with rfl | rfl | hj
      · exact le_refl _
      · exact le_of_lt (not_le.mp h)
      · exact hl b rfl j (List.mem_cons_of_mem b hj)

/-- The head of the t-sorted list is a lower bound for t over the whole list. -/
theorem sortByT_head_min (l : List Intersection) :
    ∀ a, (sortByT l).head? = some a → ∀ j ∈ sortByT l, a.t ≤ j.t := by
  induction l with
  | nil => intro a ha; simp [sortByT] at ha
  | cons b rest ih =>
    have e : sortByT (b :: rest) = insertByT b (sortByT rest) := rfl
    rw [e]
    exact insertByT_head_min b (sortByT rest) ih

/-- C6 (amended): hit_intersections returns None exactly when the list has no intersection
with positive t, and when it returns Some i then i is an element of the list, has
positive t, and its t is least among the positive t values of the list (t = 0
intersections are discarded by the `t > 0.0` filter, see the counterexample). -/
theorem hit_is_least_positive (xs : List Intersection) :
    (hit_intersections xs = none ↔ ∀ j ∈ xs, ¬ 0 < j.t) ∧
    (∀ i, hit_intersections xs = some i →
      i ∈ xs ∧ 0 < i.t ∧ ∀ j ∈ xs, 0 < j.t → i.t ≤ j.t) := by
  constructor
  · rw [hit_intersections, List.head?_eq_none_iff]
    constructor
    · intro hnil j hj hpos
      have hmem : j ∈ sortByT (xs.filter fun v => 0 < v.t) :=
        mem_sortByT.mpr (List.mem_filter.mpr ⟨hj, by simpa using hpos⟩)
      rw [hnil] at hmem
      simp at hmem
    · intro hall
      have hfil : (xs.filter fun v => 0 < v.t) = [] := by
        rw [List.filter_eq_nil_iff]
        intro j hj
        simpa using hall j hj
      rw [hfil]
      rfl
  · intro i hi
    rw [hit_intersections] at hi
    have hmem : i ∈ sortByT (xs.filter fun v => 0 < v.t) := List.mem_of_mem_head? hi
    have hfil := List.mem_filter.mp (mem_sortByT.mp hmem)
    refine ⟨hfil.1, by simpa using hfil.2, ?_⟩
    intro j hj hjpos
    exact sortByT_head_min _ i hi j
      (mem_sortByT.mpr (List.mem_filter.mpr ⟨hj, by simpa using hjpos⟩))

/-- C6 counterexample: an intersection at t = 0 has a non-negative t, yet
hit_intersections drops it and returns None. -/
theorem hit_drops_zero_t :
    hit_intersections [⟨0, Object.new_sphere 0⟩] = none ∧ (0 : ℚ) ≤ 0 := by
  refine ⟨?_, le_refl 0⟩
  rw [hit_intersections]
  norm_num [sortByT]

/-- Witness for C6 at a concrete two-element list: the hit is the t = 1 intersection. -/
theorem hit_is_least_positive_witness :
    (⟨1, Object.new_sphere 0⟩ : Intersection) ∈
      [(⟨2, Object.new_sphere 0⟩ : Intersection), ⟨1, Object.new_sphere 0⟩] ∧
    (0 : ℚ) < (⟨1, Object.new_sphere 0⟩ : Intersection).t ∧
    ∀ j ∈ [(⟨2, Object.new_sphere 0⟩ : Intersection), ⟨1, Object.new_sphere 0⟩],
      0 < j.t → (⟨1, Object.new_sphere 0⟩ : Intersection).t ≤ j.t :=
  (hit_is_least_positive _).2 ⟨1, Object.new_sphere 0⟩ (by
    rw [hit_intersections]
    norm_num [sortByT, insertByT])

/-- C9: set_pixel_color writes buffer slot y·width + x with no bound check on x: on a
fresh width×height canvas it panics exactly when y·width + x ≥ width·height, and any
in-range write lands at flat index y·width + x — when x ≥ width that index lies in a
strictly later row than y. -/
theorem set_pixel_color_unchecked_x (w h x y : ℕ) (col : Color) :
    ((Canvas.new_canvas w h).set_pixel_color x y col = none ↔ w * h ≤ y * w + x) ∧
    (∀ c', (Canvas.new_canvas w h).set_pixel_color x y col = some c' →
      c'.width = w ∧ c'.height = h ∧
      c'.pixels = (List.replicate (w * h) (Color.new_color 0 0 0)).set (y * w + x) col) ∧
    (w ≤ x → y * w + x < w * h → y < (y * w + x) / w) := by
  refine ⟨?_, ?_, ?_⟩
  · unfold Canvas.set_pixel_color Canvas.new_canvas index_from_pos
    by_cases hidx : y * w + x < w * h <;> (simp [hidx] <;> omega)
  · intro c' hc
    unfold Canvas.set_pixel_color Canvas.new_canvas index_from_pos at hc
    by_cases hidx : y * w + x < w * h <;> simp [hidx] at hc
    rw [← hc]
    exact ⟨rfl, rfl, rfl⟩
  · intro hx hlt
    have hw : 0 < w := by
      rcases Nat.eq_zero_or_pos w with hw0 | hw0
      · rw [hw0] at hlt
        simp at hlt
      · exact hw0
    rw [show y * w + x = x + w * y by ring, Nat.add_mul_div_left x y hw]
    have : 0 < x / w := Nat.div_pos hx hw
    omega

/-- Witness for C9: on a 2×3 canvas, the out-of-row write (x,y) = (3,1) succeeds and lands
in row 2. -/
theorem set_pixel_color_unchecked_x_witness :
    ((Canvas.new_canvas 2 3).set_pixel_color 3 1 BLACK = none ↔ 2 * 3 ≤ 1 * 2 + 3) ∧
    (1 : ℕ) < (1 * 2 + 3) / 2 :=
  ⟨(set_pixel_color_unchecked_x 2 3 3 1 BLACK).1,
   (set_pixel_color_unchecked_x 2 3 3 1 BLACK).2.2 (by norm_num) (by norm_num)⟩

/-- Setting an element to the right of an append. -/
theorem set_append_offset (v : Color) :
    ∀ (A B : List Color) (i : ℕ), (A ++ B).set (A.length + i) v = A ++ B.set i v := by
  intro A
  induction A with
  | nil => intro B i; simp
  | cons a A ih =>
    intro B i
    rw [List.cons_append, show (a :: A).length + i = (A.length + i) + 1 by
      simp [Nat.succ_add], List.set_cons_succ, ih, List.cons_append]

/-- A fold of writes leaves the buffer length unchanged. -/
theorem foldl_set_length (idxf : ℕ → ℕ) (vals : ℕ → Color) :
    ∀ (xs : List ℕ) (l : List Color),
      (xs.foldl (fun b x => b.set (idxf x) (vals x)) l).length = l.length := by
  intro xs
  induction xs with
  | nil => intro l; rfl
  | cons x rest ih => intro l; rw [List.foldl_cons, ih, List.length_set]

/-- Writing `g 0 … g (n−1)` at consecutive offsets after a prefix turns the next n cells
of the suffix into `map g (range n)`. -/
theorem row_fold_fill (g : ℕ → Color) :
    ∀ (n : ℕ) (b : ℕ) (pre rest : List Color), b = pre.length → n ≤ rest.length →
      (List.range n).foldl (fun l x => l.set (b + x) (g x)) (pre ++ rest) =
        pre ++ (List.range n).map g ++ rest.drop n := by
  intro n
  induction n with
  | zero => intro b pre rest hb hn; simp
  | succ k ih =>
    intro b pre rest hb hn
    rw [List.range_succ, List.foldl_append, ih b pre rest hb (Nat.le_of_succ_le hn),
      List.foldl_cons, List.foldl_nil]
    obtain ⟨c, cs, hcs⟩ : ∃ c cs, rest.drop k = c :: cs := by
      cases hdk : rest.drop k with
      | nil =>
        exfalso
        have := List.drop_eq_nil_iff.mp hdk
        omega
      | cons c cs => exact ⟨c, cs, rfl⟩
    have hdrop : rest.drop (k + 1) = cs := by
      have h2 := List.drop_drop 1 k rest
      rw [hcs] at h2
      simpa using h2.symm
    have hidx : b + k = (pre ++ (List.range k).map g).length + 0 := by
      simp [hb]
    rw [hidx, set_append_offset, hcs, List.set_cons_zero, hdrop, List.map_append]
    simp

/-- Filling the first m rows of a row-major buffer of R ≥ m rows of width hsize. -/
theorem fill_rows (hsize : ℕ) (g : ℕ → ℕ → Color) (c : Color) :
    ∀ (m R : ℕ), m ≤ R →
      (List.range m).foldl
        (fun img y => (List.range hsize).foldl
          (fun img2 x => img2.set (y * hsize + x) (g x y)) img)
        (List.replicate (hsize * R) c) =
      ((List.range m).map fun y => (List.range hsize).map fun x => g x y).flatten ++
        List.replicate (hsize * (R - m)) c := by
  have flatten_len : ∀ k : ℕ,
      (((List.range k).map fun y => (List.range hsize).map fun x => g x y).flatten).length
        = k * hsize := by
    intro k
    induction k with
    | zero => simp
    | succ j ihj =>
      rw [List.range_succ, List.map_append, List.flatten_append]
      simp [ihj, Nat.succ_mul]
  intro m
  induction m with
  | zero => intro R h; simp
  | succ k ih =>
    intro R h
    rw [List.range_succ, List.foldl_append, ih R (le_trans (Nat.le_succ k) h),
      List.foldl_cons, List.foldl_nil]
    have hrow := row_fold_fill (fun x => g x k) hsize (k * hsize)
      (((List.range k).map fun y => (List.range hsize).map fun x => g x y).flatten)
      (List.replicate (hsize * (R - k)) c)
      (by rw [flatten_len k])
      (by
        rw [List.length_replicate]
        calc hsize = hsize * 1 := by ring
          _ ≤ hsize * (R - k) := Nat.mul_le_mul_left hsize (by omega))
    rw [hrow, List.drop_replicate]
    have hrem : hsize * (R - k) - hsize = hsize * (R - (k + 1)) := by
      have h1 : R - k = (R - (k + 1)) + 1 := by omega
      rw [h1, Nat.mul_add, Nat.mul_one, Nat.add_sub_cancel]
    rw [hrem, List.map_append, List.flatten_append]
    simp

/-- Camera::render writes pixel (x,y) at flat index y·hsize + x: the canvas is the
row-major table of `colorAt`. -/
theorem render_eq_flatten_rows (hsize vsize : ℕ) (colorAt : ℕ → ℕ → Color) :
    render hsize vsize colorAt =
      ((List.range vsize).map fun y =>
        (List.range hsize).map fun x => colorAt x y).flatten := by
  rw [render, fill_rows hsize colorAt (Color.new_color 0 0 0) vsize vsize (le_refl _)]
  simp

/-- When every write is in range, the checked fold succeeds and agrees with the plain
fold. -/
theorem foldlM_setChecked (idxf : ℕ → ℕ) (vals : ℕ → Color) :
    ∀ (xs : List ℕ) (l : List Color), (∀ x ∈ xs, idxf x < l.length) →
      xs.foldlM (fun b x => setChecked b (idxf x) (vals x)) l =
        some (xs.foldl (fun b x => b.set (idxf x) (vals x)) l) := by
  intro xs
  induction xs with
  | nil => intro l _; rfl
  | cons x rest ih =>
    intro l hb
    have hx : idxf x < l.length := hb x (List.mem_cons_self x rest)
    rw [List.foldlM_cons, show setChecked l (idxf x) (vals x) =
      some (l.set (idxf x) (vals x)) from if_pos hx]
    show rest.foldlM (fun b x => setChecked b (idxf x) (vals x)) (l.set (idxf x) (vals x))
      = _
    rw [List.foldl_cons]
    exact ih _ fun y hy => by
      rw [List.length_set]
      exact hb y (List.mem_cons_of_mem x hy)

/-- A band whose every (row, col) write is in range is processed like the corresponding
unchecked row-major fill. -/
theorem foldlM_rows_eq_foldl (hsize : ℕ) (vf : ℕ → ℕ → Color) :
    ∀ (rows : List ℕ) (l : List Color),
      (∀ row ∈ rows, ∀ col ∈ List.range hsize, row * hsize + col < l.length) →
      rows.foldlM (fun b row => (List.range hsize).foldlM
        (fun b2 col => setChecked b2 (row * hsize + col) (vf row col)) b) l =
      some (rows.foldl (fun b row => (List.range hsize).foldl
        (fun b2 col => b2.set (row * hsize + col) (vf row col)) b) l) := by
  intro rows
  induction rows with
  | nil => intro l _; rfl
  | cons r rest ih =>
    intro l hb
    rw [List.foldlM_cons,
      foldlM_setChecked (fun col => r * hsize + col) (fun col => vf r col)
        (List.range hsize) l (fun col hc => hb r (List.mem_cons_self r rest) col hc)]
    show rest.foldlM _ ((List.range hsize).foldl
      (fun b2 col => b2.set (r * hsize + col) (vf r col)) l) = _
    rw [List.foldl_cons]
    exact ih _ fun row hr col hc => by
      rw [foldl_set_length (fun col => r * hsize + col) (fun col => vf r col)]
      exact hb row (List.mem_cons_of_mem r hr) col hc

/-- processBand on a full band of BAND_SIZE rows succeeds and produces the row-major
table of the band's rows. -/
theorem processBand_full (hsize : ℕ) (f : ℕ → ℕ → Color) (i : ℕ) (c : Color) :
    processBand hsize f i (List.replicate (hsize * BAND_SIZE) c) =
      some (((List.range BAND_SIZE).map fun row =>
        (List.range hsize).map fun x => f x (row + i * BAND_SIZE)).flatten) := by
  rw [processBand,
    foldlM_rows_eq_foldl hsize (fun row col => f col (row + i * BAND_SIZE))
      (List.range BAND_SIZE) (List.replicate (hsize * BAND_SIZE) c)
      (by
        intro row hr col hc
        rw [List.length_replicate]
        have hrow : row < BAND_SIZE := List.mem_range.mp hr
        have hcol : col < hsize := List.mem_range.mp hc
        calc row * hsize + col < row * hsize + hsize := by omega
          _ = (row + 1) * hsize := by ring
          _ ≤ BAND_SIZE * hsize := Nat.mul_le_mul_right hsize (by omega)
          _ = hsize * BAND_SIZE := Nat.mul_comm _ _)]
  rw [fill_rows hsize (fun x y => f x (y + i * BAND_SIZE)) c BAND_SIZE BAND_SIZE
    (le_refl _)]
  simp

/-- par_chunks_mut of n·m cells with chunk size n > 0 yields m full chunks. -/
theorem chunksList_replicate (n : ℕ) (hn : 0 < n) (c : Color) :
    ∀ m, chunksList n (List.replicate (n * m) c) =
      List.replicate m (List.replicate n c) := by
  intro m
  induction m with
  | zero => simp [chunksList]
  | succ k ih =>
    obtain ⟨n', rfl⟩ : ∃ n', n = n' + 1 := ⟨n - 1, by omega⟩
    have hsplit : List.replicate ((n' + 1) * (k + 1)) c =
        c :: (List.replicate n' c ++ List.replicate ((n' + 1) * k) c) := by
      rw [show (n' + 1) * (k + 1) = (n' + 1) + (n' + 1) * k from by ring,
        List.replicate_add, List.replicate_succ, List.cons_append]
    rw [hsplit, chunksList, dif_neg (by omega : ¬ n' + 1 = 0)]
    rw [show (c :: (List.replicate n' c ++ List.replicate ((n' + 1) * k) c)) =
      (List.replicate (n' + 1) c ++ List.replicate ((n' + 1) * k) c) from by
        rw [List.replicate_succ, List.cons_append]]
    rw [List.take_left' (by simp), List.drop_left' (by simp), ih]
    simp [List.replicate_succ]

/-- Mapping processBand over the enumerated full chunks succeeds chunk by chunk. -/
theorem mapM_processBand_enumFrom (hsize : ℕ) (f : ℕ → ℕ → Color) (chunk : List Color)
    (res : ℕ → List Color) (hres : ∀ i, processBand hsize f i chunk = some (res i)) :
    ∀ (m s : ℕ), ((List.replicate m chunk).enumFrom s).mapM
        (fun p => processBand hsize f p.1 p.2) =
      some ((List.range m).map fun k => res (s + k)) := by
  intro m
  induction m with
  | zero => intro s; rfl
  | succ k ih =>
    intro s
    rw [List.replicate_succ, List.enumFrom_cons, List.mapM_cons, hres s, ih (s + 1)]
    show some (res s :: (List.range k).map fun j => res (s + 1 + j)) =
      some ((List.range (k + 1)).map fun j => res (s + j))
    rw [List.range_succ_eq_map, List.map_cons, List.map_map]
    refine congrArg some (congrArg₂ List.cons (by rw [Nat.add_zero]) ?_)
    apply List.map_congr_left
    intro j _
    simp only [Function.comp_apply]
    congr 1
    omega

/-- Regrouping m bands of BAND_SIZE rows into m·BAND_SIZE rows. -/
theorem flatten_bands (hsize : ℕ) (f : ℕ → ℕ → Color) :
    ∀ m : ℕ,
      ((List.range m).map fun i =>
        ((List.range BAND_SIZE).map fun row =>
          (List.range hsize).map fun x => f x (row + i * BAND_SIZE)).flatten).flatten =
      ((List.range (m * BAND_SIZE)).map fun y =>
        (List.range hsize).map fun x => f x y).flatten := by
  intro m
  induction m with
  | zero => simp
  | succ k ih =>
    rw [List.range_succ, List.map_append, List.flatten_append, ih,
      show (k + 1) * BAND_SIZE = k * BAND_SIZE + BAND_SIZE from by ring, List.range_add,
      List.map_append, List.flatten_append]
    congr 1
    simp [List.map_map, Function.comp_def, Nat.add_comm]

/-- C3 (amended): when hsize > 0 and BAND_SIZE = 10 divides vsize — every parallel band is
full — the parallel band render and the serial render produce the same canvas, pixel for
pixel; without that, the parallel render panics in its last, partial band (see the
counterexample). Both renders call the identical per-pixel `Camera::color_at`, abstracted
here as the function `colorAt`. -/
theorem render_par_headless_eq_render (hsize vsize : ℕ) (colorAt : ℕ → ℕ → Color)
    (hh : 0 < hsize) (hv : vsize % BAND_SIZE = 0) :
    render_par_headless hsize vsize colorAt = some (render hsize vsize colorAt) := by
  obtain ⟨m, hm⟩ : ∃ m, vsize = m * BAND_SIZE := by
    obtain ⟨m', hm'⟩ := Nat.dvd_of_mod_eq_zero hv
    exact ⟨m', by rw [hm', Nat.mul_comm]⟩
  have hpos : 0 < hsize * BAND_SIZE := Nat.mul_pos hh (by norm_num [BAND_SIZE])
  subst hm
  have henum : ∀ L : List (List Color), L.enum = L.enumFrom 0 := fun _ => rfl
  rw [render_par_headless, if_neg (by omega)]
  rw [show hsize * (m * BAND_SIZE) = hsize * BAND_SIZE * m from by ring]
  rw [chunksList_replicate (hsize * BAND_SIZE) hpos (Color.new_color 0 0 0) m, henum]
  rw [mapM_processBand_enumFrom hsize colorAt _
    (fun i => ((List.range BAND_SIZE).map fun row =>
      (List.range hsize).map fun x => colorAt x (row + i * BAND_SIZE)).flatten)
    (fun i => processBand_full hsize colorAt i (Color.new_color 0 0 0)) m 0]
  rw [Option.map_some', render_eq_flatten_rows]
  simp only [Nat.zero_add]
  rw [flatten_bands hsize colorAt m]

/-- C3 counterexample: on a 1×1 canvas (vsize = 1 is not a multiple of BAND_SIZE = 10),
the serial render produces the one-pixel canvas while the parallel band render panics
(out-of-bounds write in its partial band). -/
theorem render_par_panics_on_partial_band :
    render_par_headless 1 1 (fun _ _ => BLACK) = none ∧
    render 1 1 (fun _ _ => BLACK) = [BLACK] := by
  constructor
  · have hr10 : List.range 10 = [0, 1, 2, 3, 4, 5, 6, 7, 8, 9] := rfl
    have hr1 : List.range 1 = [0] := rfl
    have hchunk : chunksList (1 * BAND_SIZE)
        (List.replicate (1 * 1) (Color.new_color 0 0 0)) =
        [[Color.new_color 0 0 0]] := by
      norm_num [BAND_SIZE, chunksList, List.replicate_one]
    have hband : processBand 1 (fun _ _ => BLACK) 0 [Color.new_color 0 0 0] = none := by
      rw [processBand]
      simp only [BAND_SIZE, hr10, hr1, List.foldlM_cons, List.foldlM_nil, setChecked]
      norm_num
    rw [render_par_headless, if_neg (by norm_num [BAND_SIZE]), hchunk]
    rw [show ([[Color.new_color 0 0 0]] : List (List Color)).enum =
      [(0, [Color.new_color 0 0 0])] from rfl]
    rw [List.mapM_cons, hband]
    rfl
  · rw [render_eq_flatten_rows]
    rfl

/-- Witness for C3: a 1×10 canvas (one full band) renders identically in both modes. -/
theorem render_par_headless_eq_render_witness :
    render_par_headless 1 10 (fun _ _ => BLACK) =
      some (render 1 10 (fun _ _ => BLACK)) :=
  render_par_headless_eq_render 1 10 (fun _ _ => BLACK) (by norm_num)
    (by norm_num [BAND_SIZE])

section RecursionBound

variable (sqrt : ℚ → ℚ)
variable (intersectWorldO : World → Ray → List Intersection)
variable (prepCompsO : Intersection → Ray → List Intersection → Computation)
variable (lightingO : Material → PointLight → Tuple → Tuple → Tuple → Bool → Object → Color)
variable (isShadowedO : World → Tuple → PointLight → Bool)

/-- With a recursion budget of 0 and any positive fuel, both secondary-color functions
return BLACK at once. -/
theorem secondary_black_at_zero (w : World) (comps : Computation) (fuel : ℕ)
    (hf : 1 ≤ fuel) :
    reflectedColorF sqrt intersectWorldO prepCompsO lightingO isShadowedO fuel w comps 0 =
      some (some BLACK) ∧
    refractedColorF sqrt intersectWorldO prepCompsO lightingO isShadowedO fuel w comps 0 =
      some (some BLACK) := by
  obtain ⟨f, rfl⟩ : ∃ f, fuel = f + 1 := ⟨fuel - 1, by omega⟩
  constructor
  · simp [reflectedColorF]
  · simp [refractedColorF]

/-- reflected_color needs one call frame plus, when the budget is positive, enough fuel
for color_at at budget d − 1. -/
theorem reflectedColorF_isSome (w : World) (d : ℕ)
    (hrec : d ≠ 0 → ∀ f' ray, (w.light_sources.length + 4) * d ≤ f' →
      (colorAtF sqrt intersectWorldO prepCompsO lightingO isShadowedO
        f' w ray (d - 1)).isSome) :
    ∀ (fuel : ℕ) (comps : Computation), (w.light_sources.length + 4) * d + 1 ≤ fuel →
      (reflectedColorF sqrt intersectWorldO prepCompsO lightingO isShadowedO
        fuel w comps d).isSome := by
  intro fuel comps hf
  obtain ⟨f, rfl⟩ : ∃ f, fuel = f + 1 := ⟨fuel - 1, by omega⟩
  simp only [reflectedColorF]
  by_cases hg : comps.object.get_material.reflective = 0 ∨ d = 0
  · rw [if_pos hg]
    rfl
  · rw [if_neg hg]
    push_neg at hg
    split
    · rfl
    · rename_i r _
      have hs := hrec hg.2 f r (by omega)
      split
      · rename_i hc
        rw [hc] at hs
        simp at hs
      · rfl
      · rfl

/-- refracted_color needs one call frame plus, when the budget is positive, enough fuel
for color_at at budget d − 1. -/
theorem refractedColorF_isSome (w : World) (d : ℕ)
    (hrec : d ≠ 0 → ∀ f' ray, (w.light_sources.length + 4) * d ≤ f' →
      (colorAtF sqrt intersectWorldO prepCompsO lightingO isShadowedO
        f' w ray (d - 1)).isSome) :
    ∀ (fuel : ℕ) (comps : Computation), (w.light_sources.length + 4) * d + 1 ≤ fuel →
      (refractedColorF sqrt intersectWorldO prepCompsO lightingO isShadowedO
        fuel w comps d).isSome := by
  intro fuel comps hf
  obtain ⟨f, rfl⟩ : ∃ f, fuel = f + 1 := ⟨fuel - 1, by omega⟩
  simp only [refractedColorF]
  by_cases hg : comps.object.get_material.transparency = 0 ∨ d = 0
  · rw [if_pos hg]
    rfl
  · rw [if_neg hg]
    push_neg at hg
    split
    · rfl
    · rename_i cos_i _
      split
      · rfl
      · split
        · rfl
        · rename_i direction _
          split
          · rfl
          · rename_i rray _
            have hs := hrec hg.2 f rray (by omega)
            split
            · rename_i hc
              rw [hc] at hs
              simp at hs
            · rfl
            · rfl

/-- The per-light loop of shade_hit needs fuel 2 + (number of lights left) beyond the
budget bound. -/
theorem shadeLightsF_isSome (w : World) (d : ℕ)
    (hrefl : ∀ fuel comps, (w.light_sources.length + 4) * d + 1 ≤ fuel →
      (reflectedColorF sqrt intersectWorldO prepCompsO lightingO isShadowedO
        fuel w comps d).isSome)
    (hrefr : ∀ fuel comps, (w.light_sources.length + 4) * d + 1 ≤ fuel →
      (refractedColorF sqrt intersectWorldO prepCompsO lightingO isShadowedO
        fuel w comps d).isSome) :
    ∀ (ls : List PointLight) (fuel : ℕ) (comps : Computation) (acc : Color),
      (w.light_sources.length + 4) * d + 2 + ls.length ≤ fuel →
      (shadeLightsF sqrt intersectWorldO prepCompsO lightingO isShadowedO
        fuel w comps d ls acc).isSome := by
  intro ls
  induction ls with
  | nil =>
    intro fuel comps acc hf
    obtain ⟨f, rfl⟩ : ∃ f, fuel = f + 1 := ⟨fuel - 1, by omega⟩
    simp only [shadeLightsF]
    rfl
  | cons light rest ih =>
    intro fuel comps acc hf
    obtain ⟨f, rfl⟩ : ∃ f, fuel = f + 1 := ⟨fuel - 1, by omega⟩
    simp only [shadeLightsF, List.length_cons] at hf ⊢
    split
    · rename_i hr
      have hrf := hrefl f comps (by omega)
      rw [hr] at hrf
      simp at hrf
    · rfl
    · rename_i reflected _
      split
      · rename_i hq
        have hrr := hrefr f comps (by omega)
        rw [hq] at hrr
        simp at hrr
      · rfl
      · rename_i refracted _
        split
        · split
          · rfl
          · exact ih f comps _ (by omega)
        · exact ih f comps _ (by omega)

/-- One color_at frame: dispatch on the world intersections and run shade_hit. -/
theorem colorAtF_step (w : World) (d : ℕ)
    (hrec : d ≠ 0 → ∀ f' ray, (w.light_sources.length + 4) * d ≤ f' →
      (colorAtF sqrt intersectWorldO prepCompsO lightingO isShadowedO
        f' w ray (d - 1)).isSome) :
    ∀ (fuel : ℕ) (ray : Ray), (w.light_sources.length + 4) * (d + 1) ≤ fuel →
      (colorAtF sqrt intersectWorldO prepCompsO lightingO isShadowedO
        fuel w ray d).isSome := by
  have hrefl := reflectedColorF_isSome sqrt intersectWorldO prepCompsO lightingO
    isShadowedO w d hrec
  have hrefr := refractedColorF_isSome sqrt intersectWorldO prepCompsO lightingO
    isShadowedO w d hrec
  have hsl := shadeLightsF_isSome sqrt intersectWorldO prepCompsO lightingO isShadowedO
    w d (fun fuel comps h => hrefl fuel comps h) (fun fuel comps h => hrefr fuel comps h)
  intro fuel ray hf
  have hexp : (w.light_sources.length + 4) * (d + 1) =
      (w.light_sources.length + 4) * d + w.light_sources.length + 4 := by ring
  rw [hexp] at hf
  obtain ⟨f, rfl⟩ : ∃ f, fuel = f + 1 := ⟨fuel - 1, by omega⟩
  simp only [colorAtF]
  split
  · rfl
  · rename_i i0 rest _
    obtain ⟨f2, rfl⟩ : ∃ f2, f = f2 + 1 := ⟨f - 1, by omega⟩
    simp only [shadeHitF]
    exact hsl w.light_sources f2 (prepCompsO i0 ray (i0 :: rest))
      (Color.new_color 0 0 0) (by omega)

/-- The fuel bound (number of lights + 4)·(d + 1) suffices for color_at at budget d. -/
theorem colorAtF_isSome (w : World) :
    ∀ (d fuel : ℕ) (ray : Ray), (w.light_sources.length + 4) * (d + 1) ≤ fuel →
      (colorAtF sqrt intersectWorldO prepCompsO lightingO isShadowedO
        fuel w ray d).isSome := by
  intro d
  induction d with
  | zero =>
    exact colorAtF_step sqrt intersectWorldO prepCompsO lightingO isShadowedO w 0
      (fun h => absurd rfl h)
  | succ n ih =>
    exact colorAtF_step sqrt intersectWorldO prepCompsO lightingO isShadowedO w (n + 1)
      (fun _ f' ray hf' => ih f' ray hf')

/-- C5: the mutual recursion color_at / shade_hit / reflected_color / refracted_color is
well-founded on the recursion budget: reflected_color and refracted_color return BLACK
whenever the budget is 0 (first conjunct), and otherwise recurse into color_at at budget
d − 1, so color_at evaluated in the fuel-indexed semantics reaches a result — it never
exhausts its call-depth fuel — once the fuel is at least (lights + 4)·(d + 1), for every
choice of the non-recursive leaf functions (intersect_world, prepare_computations,
lighting, is_shadowed). -/
theorem color_at_terminates_on_budget :
    (∀ (w : World) (comps : Computation) (fuel : ℕ), 1 ≤ fuel →
      reflectedColorF sqrt intersectWorldO prepCompsO lightingO isShadowedO
        fuel w comps 0 = some (some BLACK) ∧
      refractedColorF sqrt intersectWorldO prepCompsO lightingO isShadowedO
        fuel w comps 0 = some (some BLACK)) ∧
    (∀ (w : World) (ray : Ray) (d fuel : ℕ),
      (w.light_sources.length + 4) * (d + 1) ≤ fuel →
      ∃ res, colorAtF sqrt intersectWorldO prepCompsO lightingO isShadowedO
        fuel w ray d = some res) := by
  constructor
  · exact secondary_black_at_zero sqrt intersectWorldO prepCompsO lightingO isShadowedO
  · intro w ray d fuel hf
    exact Option.isSome_iff_exists.mp
      (colorAtF_isSome sqrt intersectWorldO prepCompsO lightingO isShadowedO w d fuel
        ray hf)

end RecursionBound

/-- Witness for C5: with concrete leaf functions and the empty world, color_at at budget 0
with fuel 4 terminates. -/
theorem color_at_terminates_on_budget_witness :
    ∃ res, colorAtF (fun q => q) (fun _ _ => []) (fun _ _ _ => schlickExample)
      (fun _ _ _ _ _ _ _ => BLACK) (fun _ _ _ => false) 4 exampleWorld exampleRay 0 =
      some res :=
  (color_at_terminates_on_budget (fun q => q) (fun _ _ => [])
    (fun _ _ _ => schlickExample) (fun _ _ _ _ _ _ _ => BLACK)
    (fun _ _ _ => false)).2 exampleWorld exampleRay 0 4 (by decide)

end RusTracer
